import Mathlib

/-!
# Verification of the options-pricer backend (`backend/logic.py`)

A shallow embedding of the engine in `backend/logic.py`:

* `safe_float` — lenient numeric parsing of provider fields;
* quote normalization inside `calculate_option_prices` (building `records`,
  filling a missing bid/ask side, mid price);
* `get_yahoo_iv` — provider implied-volatility lookup over the records table;
* `bs_price` / `implied_vol` — Black–Scholes price and the bracketed
  root-finding solver (scipy `brentq` modelled by its documented contract);
* `get_risk_free_rate` — piecewise-linear yield interpolation (numpy `interp`
  modelled by its documented contract);
* the Cox–Ross–Rubinstein binomial lattice with early exercise, and the
  per-strike / whole-chain assembly of `calculate_option_prices`.

Python floats are embedded as exact numbers: `ℚ` where the code only parses
and rearranges field values, `ℝ` where it calls `exp`/`log`/`sqrt`/`norm.cdf`.
`None` and `NaN` sentinels are embedded as `Option.none` (the code only ever
tests them with `is None` / `isna` / `isnan`).
-/

namespace OptionsPricer

/-- A Python value as it arrives in a Nasdaq option-chain field: `None`,
a number, or a free-form string. -/
inductive PyVal where
  | none : PyVal
  | num : ℚ → PyVal
  | str : String → PyVal
deriving DecidableEq, Repr

/-- Digit-string value; `Option.none` when some character is not a digit.
(An empty list yields `some 0`; emptiness is checked by the callers.) -/
def digitsVal (cs : List Char) : Option ℕ :=
  cs.foldl
    (fun acc c =>
      match acc with
      | Option.none => Option.none
      | some n => if c.isDigit then some (10 * n + (c.toNat - 48)) else Option.none)
    (some 0)

/-- Value of an integer-part/fraction-part pair around a decimal point. -/
def decVal (intPart fracPart : List Char) : Option ℚ :=
  if intPart.isEmpty && fracPart.isEmpty then Option.none
  else
    match digitsVal intPart, digitsVal fracPart with
    | some i, some f => some ((i : ℚ) + (f : ℚ) / (10 : ℚ) ^ fracPart.length)
    | _, _ => Option.none

/-- Python `str.strip()`: drop whitespace from both ends. -/
def pyStrip (cs : List Char) : List Char :=
  ((cs.dropWhile Char.isWhitespace).reverse.dropWhile Char.isWhitespace).reverse

/-- Python `str.replace(c, "")`: remove every occurrence of one character. -/
def removeChar (c : Char) (cs : List Char) : List Char :=
  cs.filter (fun x => x ≠ c)

/-- Modelled from the Python builtin `float(str)` used by `safe_float`,
restricted to plain decimal literals: an optional sign, then digits with at
most one decimal point (at least one digit overall).  Exponent notation,
underscores, and the named specials `inf`/`nan` are outside the model —
none of them occur in the claims, and the quoted feed fields are plain
decimals or placeholder tokens. -/
def pyFloatLit (cs : List Char) : Option ℚ :=
  let signAndRest : ℚ × List Char :=
    match cs with
    | '-' :: r => (-1, r)
    | '+' :: r => (1, r)
    | r => (1, r)
  let sign := signAndRest.1
  let rest := signAndRest.2
  match rest.splitOn '.' with
  | [w] => if w.isEmpty then Option.none else (digitsVal w).map (fun n => sign * n)
  | [w1, w2] => (decVal w1 w2).map (fun q => sign * q)
  | _ => Option.none

/-- `safe_float` (logic.py lines 82–95): `None` stays missing; numbers pass
through; strings are stripped, the placeholders `""`/`"--"` mean missing,
thousands separators and dollar signs are removed, and anything that still
fails to parse as a float is missing (the `except ValueError` branch). -/
def safe_float : PyVal → Option ℚ
  | .none => Option.none
  | .num q => some q
  | .str s =>
    let v := pyStrip s.data
    if v = [] ∨ v = ['-', '-'] then Option.none
    else pyFloatLit (removeChar '$' (removeChar ',' v))

/-- One raw Nasdaq option-chain row, restricted to the fields
`calculate_option_prices` reads. -/
structure RawEntry where
  strike : PyVal := .none
  c_Bid : PyVal := .none
  c_Ask : PyVal := .none
  c_Last : PyVal := .none
  p_Bid : PyVal := .none
  p_Ask : PyVal := .none
  p_Last : PyVal := .none
deriving DecidableEq, Repr

/-- The option side.  (`logic.py` compares `option_type == 'call'` and treats
everything else as a put; the HTTP layer only admits `call`/`put`.) -/
inductive Side where
  | call : Side
  | put : Side
deriving DecidableEq, Repr

/-- The bid field for the requested side (lines 429–443). -/
def entryBid (side : Side) (e : RawEntry) : PyVal :=
  match side with
  | .call => e.c_Bid
  | .put => e.p_Bid

/-- The ask field for the requested side (lines 429–443). -/
def entryAsk (side : Side) (e : RawEntry) : PyVal :=
  match side with
  | .call => e.c_Ask
  | .put => e.p_Ask

/-- The last-trade field for the requested side (lines 429–443). -/
def entryLast (side : Side) (e : RawEntry) : PyVal :=
  match side with
  | .call => e.c_Last
  | .put => e.p_Last

/-- One element of `records` (lines 449–461).  `impliedVolatility` is the
float the row carries for `get_yahoo_iv`; the construction stores `np.nan`,
embedded as `Option.none` (the only uses are the `is None`/`isnan` tests). -/
structure QuoteRecord where
  strike : ℚ
  bid : Option ℚ
  ask : Option ℚ
  impliedVolatility : Option ℚ
  lastPrice : Option ℚ
deriving DecidableEq, Repr

/-- The per-entry normalization step of the `records` loop
(lines 421–461): skip when the strike fails to parse, parse the sided
bid/ask/last, skip when bid and ask are both missing. -/
def normEntry (side : Side) (e : RawEntry) : Option QuoteRecord :=
  match safe_float e.strike with
  | Option.none => Option.none
  | some k =>
    let bid := safe_float (entryBid side e)
    let ask := safe_float (entryAsk side e)
    let last := safe_float (entryLast side e)
    if bid = Option.none ∧ ask = Option.none then Option.none
    else some { strike := k, bid := bid, ask := ask,
                impliedVolatility := Option.none, lastPrice := last }

/-- The full `records` list built from the contracts (lines 419–461). -/
def buildRecords (side : Side) (contracts : List RawEntry) : List QuoteRecord :=
  contracts.filterMap (normEntry side)

/-- `df.dropna(subset=['bid','ask'], how='all')` (line 469). -/
def dropnaBidAsk (rs : List QuoteRecord) : List QuoteRecord :=
  rs.filter (fun r => !(r.bid.isNone && r.ask.isNone))

/-- The bid/ask filling step of the per-strike loop (lines 486–500):
skip when both are missing, otherwise a missing side is copied from the
present side. -/
def fillBidAsk : Option ℚ → Option ℚ → Option (ℚ × ℚ)
  | Option.none, Option.none => Option.none
  | some b, Option.none => some (b, b)
  | Option.none, some a => some (a, a)
  | some b, some a => some (b, a)

/-- `get_yahoo_iv` (lines 139–151): find the record with the requested
strike; its stored implied volatility is used only when present (not
`None`/`NaN`) and greater than `0.001`. -/
def get_yahoo_iv (df : List QuoteRecord) (strike : ℚ) : Option ℚ :=
  match df.find? (fun r => r.strike == strike) with
  | some r =>
    match r.impliedVolatility with
    | some iv => if 1 / 1000 < iv then some iv else Option.none
    | Option.none => Option.none
  | Option.none => Option.none

/-- `scipy.stats.norm.cdf`, modelled as the cumulative distribution function
of the standard normal distribution. -/
noncomputable def normCdf (x : ℝ) : ℝ :=
  ProbabilityTheory.cdf (ProbabilityTheory.gaussianReal 0 1) x

/-- `bs_price` (lines 121–133): the closed-form Black–Scholes price. -/
noncomputable def bs_price (S K T r sigma : ℝ) (side : Side) : ℝ :=
  let d1 := (Real.log (S / K) + (r + 0.5 * sigma ^ 2) * T) / (sigma * Real.sqrt T)
  let d2 := d1 - sigma * Real.sqrt T
  match side with
  | .call => S * normCdf d1 - K * Real.exp (-r * T) * normCdf d2
  | .put => K * Real.exp (-r * T) * normCdf (-d2) - S * normCdf (-d1)

/-- Modelled from the documented contract of `scipy.optimize.brentq(f, a, b)`
(and the entry checks of its C implementation): evaluate the two bracket
ends; when the values have the same nonzero sign raise `ValueError`
(embedded as `Option.none`); when an end is an exact root return that end;
otherwise converge to a root inside the bracket.  The returned interior
root is represented as an infimum of the root set — every claim below
depends only on whether the solver fails, never on which root it returns. -/
noncomputable def brentq (f : ℝ → ℝ) (a b : ℝ) : Option ℝ :=
  if 0 < f a * f b then Option.none
  else if f a = 0 then some a
  else if f b = 0 then some b
  else some (sInf {x | x ∈ Set.Icc a b ∧ f x = 0})

/-- `implied_vol` (lines 157–165): root-find the Black–Scholes volatility
matching the market price over the bracket `[1e-6, 5.0]`. -/
noncomputable def implied_vol (S K T r market_price : ℝ) (side : Side) : Option ℝ :=
  brentq (fun sigma => bs_price S K T r sigma side - market_price) (1 / 1000000) 5

/-- Python `int(x)` on a float: truncation toward zero. -/
noncomputable def pyInt (x : ℝ) : ℤ :=
  if x < 0 then -⌊-x⌋ else ⌊x⌋

/-- `N = max(100, int(T * 365))` (line 518). -/
noncomputable def numSteps (T : ℝ) : ℤ :=
  max 100 (pyInt (T * 365))

/-- The step count as a natural number (`N` is always ≥ 100 > 0). -/
noncomputable def latticeSteps (T : ℝ) : ℕ :=
  (numSteps T).toNat

/-- `dt = T / N` (line 520). -/
noncomputable def crrDt (T : ℝ) : ℝ :=
  T / (latticeSteps T : ℝ)

/-- `u = np.exp(sigma * np.sqrt(dt))` (line 522). -/
noncomputable def crrU (T sigma : ℝ) : ℝ :=
  Real.exp (sigma * Real.sqrt (crrDt T))

/-- `d = 1 / u` (line 524). -/
noncomputable def crrD (T sigma : ℝ) : ℝ :=
  1 / crrU T sigma

/-- `R = np.exp(r * dt)` (line 526). -/
noncomputable def crrR (T r : ℝ) : ℝ :=
  Real.exp (r * crrDt T)

/-- `p = (R - d) / (u - d)` (line 528). -/
noncomputable def crrP (T r sigma : ℝ) : ℝ :=
  (crrR T r - crrD T sigma) / (crrU T sigma - crrD T sigma)

/-- Immediate-exercise payoff `S - K` (call) / `K - S` (put), without the
flooring at zero (the interior lattice comparison uses it unfloored). -/
noncomputable def intrinsic (side : Side) (S K : ℝ) : ℝ :=
  match side with
  | .call => S - K
  | .put => K - S

/-- The lattice node price `exp(log S0 + j log u + (i - j) log d)`
(lines 532–534 and 548). -/
noncomputable def nodePrice (S0 u d : ℝ) (i j : ℕ) : ℝ :=
  Real.exp (Real.log S0 + (j : ℝ) * Real.log u + ((i - j : ℕ) : ℝ) * Real.log d)

/-- The terminal payoff layer `np.maximum(±(S_T - K), 0)` (lines 530–542). -/
noncomputable def terminalLayer (S0 K u d : ℝ) (side : Side) (N : ℕ) : List ℝ :=
  (List.range (N + 1)).map (fun j => max (intrinsic side (nodePrice S0 u d N j) K) 0)

/-- One backward-induction step at layer `i` (lines 544–556): discount the
risk-neutral expectation of the two children, then take the maximum with the
immediate-exercise payoff at every node of the layer. -/
noncomputable def backstep (S0 K u d p R : ℝ) (side : Side) (i : ℕ) (vs : List ℝ) : List ℝ :=
  List.zipWith max
    (List.zipWith (fun up down => (p * up + (1 - p) * down) / R) vs.tail vs.dropLast)
    ((List.range (i + 1)).map fun j => intrinsic side (nodePrice S0 u d i j) K)

/-- The backward-induction loop `for i in range(N - 1, -1, -1)`:
`backward … n vs` runs the steps `i = n-1, …, 0` on the layer `vs`. -/
noncomputable def backward (S0 K u d p R : ℝ) (side : Side) : ℕ → List ℝ → List ℝ
  | 0, vs => vs
  | i + 1, vs => backward S0 K u d p R side i (backstep S0 K u d p R side i vs)

/-- The American option value `option_values[0]` after the full backward
induction (lines 516–556). -/
noncomputable def americanValue (S0 K T r sigma : ℝ) (side : Side) : ℝ :=
  (backward S0 K (crrU T sigma) (crrD T sigma) (crrP T r sigma) (crrR T r) side
      (latticeSteps T)
      (terminalLayer S0 K (crrU T sigma) (crrD T sigma) side (latticeSteps T))).headD 0

/-- The `% difference in pricing` field (lines 558–564, 582): defined only
when the reference last price is present (not `NaN`) and positive and the
computed American value is positive; note the division by the American
value. -/
noncomputable def pctDiff (americanRoot : ℝ) (lastPrice : Option ℚ) : Option ℝ :=
  match lastPrice with
  | Option.none => Option.none
  | some lp =>
    if 0 < (lp : ℝ) ∧ 0 < americanRoot then
      some ((americanRoot - (lp : ℝ)) * 100 / americanRoot)
    else Option.none

/-- One result row (lines 566–584). -/
structure StrikeRow where
  strike : ℝ
  bid : ℝ
  ask : ℝ
  midPrice : ℝ
  impliedVol : ℝ
  lastYahooPrice : Option ℝ
  americanOptionValue : ℝ
  pctDifference : Option ℝ

/-- The per-strike body of the results loop (lines 476–584): fill the
missing bid/ask side (skip when both are missing), mid price, provider
implied volatility via `get_yahoo_iv` with the solver `implied_vol` as
fallback (skip the strike when the solver fails), then the lattice value
and the row assembly. -/
noncomputable def perStrike (S0 T r : ℝ) (side : Side) (df : List QuoteRecord)
    (rec : QuoteRecord) : Option StrikeRow :=
  match fillBidAsk rec.bid rec.ask with
  | Option.none => Option.none
  | some (bid, ask) =>
    let K : ℝ := (rec.strike : ℝ)
    let market_price : ℝ := ((bid : ℝ) + (ask : ℝ)) / 2
    let sigma : Option ℝ :=
      match get_yahoo_iv df rec.strike with
      | some iv => some (iv : ℝ)
      | Option.none => implied_vol S0 K T r market_price side
    match sigma with
    | Option.none => Option.none
    | some s =>
      let root := americanValue S0 K T r s side
      some { strike := K, bid := (bid : ℝ), ask := (ask : ℝ),
             midPrice := market_price, impliedVol := s,
             lastYahooPrice := rec.lastPrice.map (fun q => (q : ℝ)),
             americanOptionValue := root,
             pctDifference := pctDiff root rec.lastPrice }

/-- The explicit failure conditions of `calculate_option_prices`:
expiration not in the future (line 397), no contracts for the expiration
(line 415), no usable contracts after normalization (line 463). -/
inductive ChainError where
  | expirationNotFuture : ChainError
  | noContracts : ChainError
  | noUsableContracts : ChainError
deriving DecidableEq, Repr

/-- The returned chain payload (lines 586–600); the `expiration` string is
an untouched passthrough of the input and is omitted. -/
structure ChainResult where
  currentPrice : ℝ
  timeToMaturity : ℝ
  riskFreeRate : ℝ
  optionType : Side
  results : List StrikeRow

/-- `calculate_option_prices` (lines 377–600) from the point where the
externally fetched data is in hand: the spot price `S0`, the day count
`delta_days` to expiration, the risk-free rate `r`, the side, and the
contract rows for the expiration.  Validation of the day count, the two
empty-data checks, normalization, and the per-strike loop. -/
noncomputable def calculate_option_prices (S0 : ℝ) (delta_days : ℤ) (r : ℝ)
    (side : Side) (contracts : List RawEntry) : Except ChainError ChainResult :=
  if delta_days ≤ 0 then Except.error ChainError.expirationNotFuture
  else if contracts.isEmpty then Except.error ChainError.noContracts
  else if (buildRecords side contracts).isEmpty then Except.error ChainError.noUsableContracts
  else
    Except.ok { currentPrice := S0, timeToMaturity := (delta_days : ℝ) / 365,
                riskFreeRate := r, optionType := side,
                results := (dropnaBidAsk (buildRecords side contracts)).filterMap
                  (perStrike S0 ((delta_days : ℝ) / 365) r side
                    (dropnaBidAsk (buildRecords side contracts))) }

/-- A concrete contract row: strike 100 quoted with an absurdly large bid
(far above any achievable model price) and a placeholder ask. -/
def hugeBidEntry : RawEntry :=
  { strike := PyVal.str "100", c_Bid := PyVal.str "1000000", c_Ask := PyVal.str "--" }

/-- A concrete contract row: strike 100, bid 5, placeholder ask. -/
def smallBidEntry : RawEntry :=
  { strike := PyVal.str "100", c_Bid := PyVal.str "5", c_Ask := PyVal.str "--" }

/-- The record `hugeBidEntry` normalizes to. -/
def hugeBidRec : QuoteRecord :=
  { strike := 100, bid := some 1000000, ask := Option.none,
    impliedVolatility := Option.none, lastPrice := Option.none }

/-- The record `smallBidEntry` normalizes to. -/
def smallBidRec : QuoteRecord :=
  { strike := 100, bid := some 5, ask := Option.none,
    impliedVolatility := Option.none, lastPrice := Option.none }

/-- `DEFAULT_RISK_FREE = 0.03` (line 31). -/
def DEFAULT_RISK_FREE : ℚ := 3 / 100

/-- Modelled from the documented contract of `numpy.interp(x, xp, fp)` for
increasing `xp`: clamp to the boundary values outside the anchor range,
piecewise-linear interpolation between bracketing anchors inside. -/
def npInterp (x : ℚ) : List (ℚ × ℚ) → ℚ
  | [] => 0
  | [(_, y0)] => y0
  | (x0, y0) :: (x1, y1) :: rest =>
    if x ≤ x0 then y0
    else if x ≤ x1 then y0 + (y1 - y0) * (x - x0) / (x1 - x0)
    else npInterp x ((x1, y1) :: rest)

/-- `get_risk_free_rate` (lines 191–227) as a function of the anchors that
survived fetching — `(maturity, yield)` pairs kept in the fixed source
order 0.25y, 5y, 10y, 30y (so increasing in maturity): fall back to
`DEFAULT_RISK_FREE` when no anchor survives, otherwise `np.interp`. -/
def get_risk_free_rate (T : ℚ) (anchors : List (ℚ × ℚ)) : ℚ :=
  if anchors.isEmpty then DEFAULT_RISK_FREE else npInterp T anchors

/-- The lattice step-count policy as the specification words it:
`max(100, round(T × 365))` with round-to-nearest. -/
noncomputable def specSteps (T : ℝ) : ℤ :=
  max 100 (round (T * 365))

/-! ## Helper lemmas -/

/-- A list's `getLast?` value is a member of the list. -/
lemma mem_of_getLast?_eq_some {α : Type _} {l : List α} {a : α}
    (h : l.getLast? = some a) : a ∈ l := by
  obtain ⟨hne, rfl⟩ := List.mem_getLast?_eq_getLast (l := l) (x := a) (by rw [h]; rfl)
  exact List.getLast_mem hne

/-- Dissection of a successful `normEntry` call: the parsed fields of the
surviving record. -/
lemma normEntry_eq_some {side : Side} {e : RawEntry} {rec : QuoteRecord}
    (h : normEntry side e = some rec) :
    safe_float e.strike = some rec.strike
    ∧ rec.bid = safe_float (entryBid side e)
    ∧ rec.ask = safe_float (entryAsk side e)
    ∧ rec.impliedVolatility = Option.none
    ∧ rec.lastPrice = safe_float (entryLast side e)
    ∧ ¬(rec.bid = Option.none ∧ rec.ask = Option.none) := by
  unfold normEntry at h
  rcases hs : safe_float e.strike with _ | k
  · rw [hs] at h
    exact absurd h (by simp)
  · rw [hs] at h
    dsimp only at h
    by_cases hba : safe_float (entryBid side e) = Option.none
      ∧ safe_float (entryAsk side e) = Option.none
    · rw [if_pos hba] at h
      exact absurd h (by simp)
    · rw [if_neg hba] at h
      injection h with hrec
      subst hrec
      exact ⟨rfl, rfl, rfl, rfl, rfl, hba⟩

/-- Dissection of a successful `perStrike` call: the filled bid/ask pair, the
volatility (provider lookup with solver fallback), and the assembled row. -/
lemma perStrike_eq_some {S0 T r : ℝ} {side : Side} {df : List QuoteRecord}
    {rec : QuoteRecord} {row : StrikeRow}
    (h : perStrike S0 T r side df rec = some row) :
    ∃ bid ask s, fillBidAsk rec.bid rec.ask = some (bid, ask) ∧
      (match get_yahoo_iv df rec.strike with
        | some iv => some (iv : ℝ)
        | Option.none =>
            implied_vol S0 (rec.strike : ℝ) T r (((bid : ℝ) + (ask : ℝ)) / 2) side) = some s ∧
      row = { strike := (rec.strike : ℝ), bid := (bid : ℝ), ask := (ask : ℝ),
              midPrice := ((bid : ℝ) + (ask : ℝ)) / 2, impliedVol := s,
              lastYahooPrice := rec.lastPrice.map (fun q => (q : ℝ)),
              americanOptionValue := americanValue S0 (rec.strike : ℝ) T r s side,
              pctDifference :=
                pctDiff (americanValue S0 (rec.strike : ℝ) T r s side) rec.lastPrice } := by
  unfold perStrike at h
  rcases hfill : fillBidAsk rec.bid rec.ask with _ | ⟨bid, ask⟩
  · rw [hfill] at h
    exact absurd h (by simp)
  · rw [hfill] at h
    dsimp only at h
    rcases hiv : get_yahoo_iv df rec.strike with _ | iv
    · rw [hiv] at h
      dsimp only at h
      rcases hsol : implied_vol S0 (rec.strike : ℝ) T r (((bid : ℝ) + (ask : ℝ)) / 2) side
        with _ | s
      · rw [hsol] at h
        exact absurd h (by simp)
      · rw [hsol] at h
        dsimp only at h
        refine ⟨bid, ask, s, rfl, by simpa using hsol, ?_⟩
        simpa using h.symm
    · rw [hiv] at h
      dsimp only at h
      refine ⟨bid, ask, (iv : ℝ), rfl, by simp, ?_⟩
      simpa using h.symm

/-! ## C8: `safe_float` behavior -/

/-- **C8.** `safe_float` is a total map from `None`/number/string inputs to an
optional number: `None`, the empty string, and the placeholder `"--"` are
absent (not zero, not an error); numbers pass through; thousands separators
and dollar signs are stripped before conversion; any remaining non-numeric
text is absent; every string input either parses after the stripping or is
absent — no input raises. -/
theorem c8_safe_float_spec :
    (safe_float PyVal.none = Option.none)
    ∧ (∀ q : ℚ, safe_float (PyVal.num q) = some q)
    ∧ (safe_float (PyVal.str "") = Option.none)
    ∧ (safe_float (PyVal.str "  ") = Option.none)
    ∧ (safe_float (PyVal.str "--") = Option.none)
    ∧ (safe_float (PyVal.str "$12,345.67") = some (1234567 / 100))
    ∧ (safe_float (PyVal.str "1,234") = some 1234)
    ∧ (safe_float (PyVal.str "N/A") = Option.none)
    ∧ (safe_float (PyVal.str "12.3.4") = Option.none)
    ∧ (∀ s : String,
        safe_float (PyVal.str s) =
          pyFloatLit (removeChar '$' (removeChar ',' (pyStrip s.data)))
        ∨ safe_float (PyVal.str s) = Option.none) := by
  refine ⟨rfl, fun q => rfl, ?_, ?_, ?_, ?_, ?_, ?_, ?_, ?_⟩
  · simp +decide [safe_float]
  · simp +decide [safe_float]
  · simp +decide [safe_float]
  · simp +decide [safe_float, pyFloatLit, pyStrip, removeChar, digitsVal, decVal,
      List.dropWhile, List.splitOn, List.splitOnP, List.splitOnP.go, List.filter, List.foldl]
      <;> norm_num
  · simp +decide [safe_float, pyFloatLit, pyStrip, removeChar, digitsVal, decVal,
      List.dropWhile, List.splitOn, List.splitOnP, List.splitOnP.go, List.filter, List.foldl]
      <;> norm_num
  · simp +decide [safe_float, pyFloatLit, pyStrip, removeChar, digitsVal, decVal,
      List.dropWhile, List.splitOn, List.splitOnP, List.splitOnP.go, List.filter, List.foldl]
      <;> norm_num
  · simp +decide [safe_float, pyFloatLit, pyStrip, removeChar, digitsVal, decVal,
      List.dropWhile, List.splitOn, List.splitOnP, List.splitOnP.go, List.filter, List.foldl]
      <;> norm_num
  · intro s
    unfold safe_float
    by_cases hv : pyStrip s.data = [] ∨ pyStrip s.data = ['-', '-']
    · exact Or.inr (by simp [hv])
    · exact Or.inl (by simp [hv])

/-- Witness for C8 at concrete inputs. -/
theorem c8_safe_float_spec_witness :
    safe_float (PyVal.num 7) = some 7 ∧ safe_float (PyVal.str "--") = Option.none :=
  ⟨c8_safe_float_spec.2.1 7, c8_safe_float_spec.2.2.2.2.1⟩

/-! ## C7: quote normalization -/

/-- **C7.** Quote normalization: a quote whose strike fails to parse is
skipped; a quote with bid and ask both absent is skipped; a surviving record
carries the parsed strike/bid/ask; when exactly one of bid/ask is present the
missing side is filled from the present one, and every emitted row's mid
price is the average of its (filled) bid and ask; concretely,
`bid="$12,345.67", ask="--"` parses to bid `12345.67` with absent ask, the
fill step synthesizes `bid = ask = 12345.67`, and the mid price is
`12345.67`. -/
theorem c7_normalization_spec :
    (∀ side e, safe_float e.strike = Option.none → normEntry side e = Option.none)
    ∧ (∀ side e, safe_float (entryBid side e) = Option.none →
        safe_float (entryAsk side e) = Option.none → normEntry side e = Option.none)
    ∧ (∀ side e rec, normEntry side e = some rec →
        safe_float e.strike = some rec.strike
        ∧ rec.bid = safe_float (entryBid side e)
        ∧ rec.ask = safe_float (entryAsk side e)
        ∧ ¬(rec.bid = Option.none ∧ rec.ask = Option.none))
    ∧ (∀ b : ℚ, fillBidAsk (some b) Option.none = some (b, b))
    ∧ (∀ a : ℚ, fillBidAsk Option.none (some a) = some (a, a))
    ∧ (∀ S0 T r side df rec row, perStrike S0 T r side df rec = some row →
        row.midPrice = (row.bid + row.ask) / 2)
    ∧ (normEntry Side.call
        { strike := PyVal.str "100", c_Bid := PyVal.str "$12,345.67", c_Ask := PyVal.str "--" } =
        some { strike := 100, bid := some (1234567 / 100), ask := Option.none,
               impliedVolatility := Option.none, lastPrice := Option.none })
    ∧ (fillBidAsk (some (1234567 / 100)) Option.none = some (1234567 / 100, 1234567 / 100))
    ∧ (((1234567 / 100 : ℚ) + 1234567 / 100) / 2 = 1234567 / 100) := by
  refine ⟨?_, ?_, ?_, fun b => rfl, fun a => rfl, ?_, ?_, rfl, by norm_num⟩
  · intro side e h
    simp [normEntry, h]
  · intro side e h1 h2
    unfold normEntry
    rcases hs : safe_float e.strike with _ | k
    · rfl
    · simp [h1, h2]
  · intro side e rec h
    obtain ⟨h1, h2, h3, -, -, h4⟩ := normEntry_eq_some h
    exact ⟨h1, h2, h3, h4⟩
  · intro S0 T r side df rec row h
    obtain ⟨bid, ask, s, -, -, hrow⟩ := perStrike_eq_some h
    subst hrow
    rfl
  · simp +decide [normEntry, entryBid, entryAsk, entryLast, safe_float, pyFloatLit, pyStrip,
      removeChar, digitsVal, decVal, List.dropWhile, List.splitOn, List.splitOnP,
      List.splitOnP.go, List.filter, List.foldl]
      <;> norm_num

/-- Witness for C7 at concrete inputs. -/
theorem c7_normalization_spec_witness :
    fillBidAsk (some (5 : ℚ)) Option.none = some (5, 5)
    ∧ normEntry Side.call
        { strike := PyVal.str "100", c_Bid := PyVal.str "$12,345.67", c_Ask := PyVal.str "--" } =
        some { strike := 100, bid := some (1234567 / 100), ask := Option.none,
               impliedVolatility := Option.none, lastPrice := Option.none } :=
  ⟨c7_normalization_spec.2.2.2.1 5, c7_normalization_spec.2.2.2.2.2.2.1⟩

/-! ## C3: the lattice step count -/

/-- **C3 counterexample.** At `T = 3286/3650` (so `T × 365 = 328.6`) the code
uses `int` truncation and takes `max(100, 328) = 328` steps, while the
claimed nearest-integer rounding would give `max(100, 329) = 329`. -/
theorem c3_numSteps_cex :
    ¬ (numSteps (3286 / 3650) = specSteps (3286 / 3650)) := by
  have h1 : numSteps ((3286 : ℝ) / 3650) = 328 := by
    unfold numSteps pyInt
    rw [if_neg (by norm_num)]
    have hf : ⌊((3286 : ℝ) / 3650) * 365⌋ = 328 := by
      rw [Int.floor_eq_iff]
      norm_num
    rw [hf]
    norm_num
  have h2 : specSteps ((3286 : ℝ) / 3650) = 329 := by
    unfold specSteps
    have hr : round (((3286 : ℝ) / 3650) * 365) = 329 := by
      rw [round_eq, Int.floor_eq_iff]
      norm_num
    rw [hr]
    norm_num
  rw [h1, h2]
  norm_num

/-- **C3 (amended).** For every `T > 0` the step count is
`max(100, ⌊T × 365⌋)` — truncation, not rounding to nearest; the claimed
rounding form is correct exactly on the inputs the chain actually produces,
`T = days / 365` with integral day counts. -/
theorem c3_numSteps_spec (T : ℝ) (hT : 0 < T) :
    numSteps T = max 100 ⌊T * 365⌋
    ∧ ((∃ days : ℕ, T = (days : ℝ) / 365) → numSteps T = specSteps T) := by
  have hnn : ¬ (T * 365 < 0) := not_lt.mpr (by nlinarith)
  constructor
  · unfold numSteps pyInt
    rw [if_neg hnn]
  · rintro ⟨days, rfl⟩
    have h365 : ((days : ℝ) / 365) * 365 = (days : ℝ) := by field_simp
    unfold numSteps specSteps pyInt
    rw [if_neg hnn, h365]
    have hf : ⌊(days : ℝ)⌋ = days := by exact_mod_cast Int.floor_natCast days
    have hr : round ((days : ℝ)) = days := by exact_mod_cast round_natCast days
    rw [hf, hr]

/-- Witness for C3 (amended) at `T = 2` (730 days). -/
theorem c3_numSteps_spec_witness :
    numSteps 2 = max 100 ⌊(2 : ℝ) * 365⌋
    ∧ ((∃ days : ℕ, (2 : ℝ) = (days : ℝ) / 365) → numSteps 2 = specSteps 2) :=
  c3_numSteps_spec 2 (by norm_num)

/-! ## C10: the percent-difference field -/

/-- **C10.** The percent-difference field equals
`(americanValue − referencePrice) × 100 / americanValue` (division by the
American value), is present exactly when the reference last price is present
and positive and the American value is positive, and every emitted row's
field is this function of its own American value and reference price. -/
theorem c10_pct_diff_spec (av : ℝ) (lastP : Option ℚ) :
    (∀ lp : ℚ, lastP = some lp → 0 < (lp : ℝ) → 0 < av →
        pctDiff av lastP = some ((av - (lp : ℝ)) * 100 / av))
    ∧ (pctDiff av lastP ≠ Option.none →
        ∃ lp : ℚ, lastP = some lp ∧ 0 < (lp : ℝ) ∧ 0 < av)
    ∧ (∀ S0 T r side df rec row, perStrike S0 T r side df rec = some row →
        row.pctDifference = pctDiff row.americanOptionValue rec.lastPrice) := by
  refine ⟨?_, ?_, ?_⟩
  · rintro lp rfl hlp hav
    simp [pctDiff, hlp, hav]
  · intro h
    rcases lastP with _ | lp
    · exact absurd rfl h
    · by_cases hlp : 0 < (lp : ℝ)
      · by_cases hav : 0 < av
        · exact ⟨lp, rfl, hlp, hav⟩
        · exact absurd (by simp [pctDiff, hav]) h
      · exact absurd (by simp [pctDiff, hlp]) h
  · intro S0 T r side df rec row h
    obtain ⟨bid, ask, s, -, -, hrow⟩ := perStrike_eq_some h
    subst hrow
    rfl

/-- Witness for C10 at concrete inputs. -/
theorem c10_pct_diff_spec_witness :
    pctDiff 2 (some 1) = some (((2 : ℝ) - ((1 : ℚ) : ℝ)) * 100 / 2) :=
  (c10_pct_diff_spec 2 (some 1)).1 1 rfl (by norm_num) (by norm_num)

/-! ## C6: provider implied volatility is never used -/

/-- **C6.** Every record built by the chain stores `NaN` (absent) in its
`impliedVolatility` field, so the provider lookup `get_yahoo_iv` over the
chain's own table always returns `None`, and the implied volatility of
every emitted result row is the output of the root-finding solver
`implied_vol` on that row's mid price. -/
theorem c6_solver_iv_only (side : Side) (contracts : List RawEntry) :
    (∀ rec ∈ buildRecords side contracts, rec.impliedVolatility = Option.none)
    ∧ (∀ K, get_yahoo_iv (dropnaBidAsk (buildRecords side contracts)) K = Option.none)
    ∧ (∀ (S0 T r : ℝ) (rec : QuoteRecord) (row : StrikeRow),
        perStrike S0 T r side (dropnaBidAsk (buildRecords side contracts)) rec = some row →
        ∃ bid ask, fillBidAsk rec.bid rec.ask = some (bid, ask) ∧
          implied_vol S0 (rec.strike : ℝ) T r (((bid : ℝ) + (ask : ℝ)) / 2) side =
            some row.impliedVol) := by
  have hiv : ∀ rec ∈ buildRecords side contracts, rec.impliedVolatility = Option.none := by
    intro rec hrec
    obtain ⟨e, -, he⟩ := List.mem_filterMap.mp hrec
    exact (normEntry_eq_some he).2.2.2.1
  have hlookup : ∀ K, get_yahoo_iv (dropnaBidAsk (buildRecords side contracts)) K
      = Option.none := by
    intro K
    unfold get_yahoo_iv
    rcases hf : (dropnaBidAsk (buildRecords side contracts)).find?
        (fun r => r.strike == K) with _ | r
    · simp [hf]
    · have hmem : r ∈ buildRecords side contracts :=
        List.mem_of_mem_filter (List.mem_of_find?_eq_some hf)
      simp [hf, hiv r hmem]
  refine ⟨hiv, hlookup, ?_⟩
  intro S0 T r rec row h
  obtain ⟨bid, ask, s, hfill, hsig, hrow⟩ := perStrike_eq_some h
  rw [hlookup rec.strike] at hsig
  refine ⟨bid, ask, hfill, ?_⟩
  rw [hrow]
  exact hsig

/-- Witness for C6 at a concrete chain. -/
theorem c6_solver_iv_only_witness :
    get_yahoo_iv (dropnaBidAsk (buildRecords Side.call
      [{ strike := PyVal.str "100", c_Bid := PyVal.str "5" }])) 100 = Option.none :=
  (c6_solver_iv_only Side.call
    [{ strike := PyVal.str "100", c_Bid := PyVal.str "5" }]).2.1 100

/-! ## C9: the risk-free rate curve -/

/-- `npInterp` on a two-or-more-anchor list, as an unfolded equation. -/
lemma npInterp_cons_cons (x : ℚ) (a b : ℚ × ℚ) (rest : List (ℚ × ℚ)) :
    npInterp x (a :: b :: rest) =
      if x ≤ a.1 then a.2
      else if x ≤ b.1 then a.2 + (b.2 - a.2) * (x - a.1) / (b.1 - a.1)
      else npInterp x (b :: rest) := by
  obtain ⟨a1, a2⟩ := a
  obtain ⟨b1, b2⟩ := b
  rfl

/-- `npInterp` on a single anchor. -/
lemma npInterp_single (x : ℚ) (a : ℚ × ℚ) : npInterp x [a] = a.2 := by
  obtain ⟨a1, a2⟩ := a
  rfl

/-- The exact value of the linear-interpolation formula at the right end. -/
lemma linear_at_right {x0 y0 x1 : ℚ} (y1 : ℚ) (h01 : x0 < x1) :
    y0 + (y1 - y0) * (x1 - x0) / (x1 - x0) = y1 := by
  rw [mul_div_assoc, div_self (by linarith), mul_one]
  ring

/-- The linear-interpolation formula stays between its endpoint values. -/
lemma linear_between {x0 y0 x1 y1 x : ℚ} (h01 : x0 < x1) (hx0 : x0 ≤ x) (hx1 : x ≤ x1) :
    min y0 y1 ≤ y0 + (y1 - y0) * (x - x0) / (x1 - x0)
    ∧ y0 + (y1 - y0) * (x - x0) / (x1 - x0) ≤ max y0 y1 := by
  have hd : 0 < x1 - x0 := by linarith
  have ht0 : 0 ≤ (x - x0) / (x1 - x0) := div_nonneg (by linarith) hd.le
  have ht1 : (x - x0) / (x1 - x0) ≤ 1 := by
    rw [div_le_one hd]
    linarith
  have hval : y0 + (y1 - y0) * (x - x0) / (x1 - x0)
      = y0 + (y1 - y0) * ((x - x0) / (x1 - x0)) := by
    ring
  rw [hval]
  rcases le_total y0 y1 with hy | hy
  · rw [min_eq_left hy, max_eq_right hy]
    constructor <;> nlinarith
  · rw [min_eq_right hy, max_eq_left hy]
    constructor <;> nlinarith

/-- Left clamp: at or below the first anchor the value is its yield. -/
lemma npInterp_head (x : ℚ) (p : ℚ × ℚ) (rest : List (ℚ × ℚ)) (hx : x ≤ p.1) :
    npInterp x (p :: rest) = p.2 := by
  rcases rest with _ | ⟨q, rest'⟩
  · exact npInterp_single x p
  · rw [npInterp_cons_cons, if_pos hx]

/-- Right clamp: at or above the last anchor the value is its yield. -/
lemma npInterp_last (x : ℚ) :
    ∀ (l : List (ℚ × ℚ)), l.Pairwise (fun p q => p.1 < q.1) →
      ∀ b, l.getLast? = some b → b.1 ≤ x → npInterp x l = b.2 := by
  intro l
  induction l with
  | nil =>
    intro _ b hb
    simp at hb
  | cons p rest ih =>
    intro hsort b hb hbx
    rcases rest with _ | ⟨q, rest'⟩
    · have hpb : p = b := by simpa using hb
      rw [hpb]
      exact npInterp_single x b
    · have hb' : (q :: rest').getLast? = some b := by
        rwa [List.getLast?_cons_cons] at hb
      have hbmem : b ∈ q :: rest' := mem_of_getLast?_eq_some hb'
      have hpb : p.1 < b.1 := (List.pairwise_cons.mp hsort).1 b hbmem
      have hpq : p.1 < q.1 := (List.pairwise_cons.mp hsort).1 q (by simp)
      rw [npInterp_cons_cons, if_neg (by linarith)]
      by_cases hq : x ≤ q.1
      · have hqb : q = b := by
          rcases List.mem_cons.mp hbmem with hbq | hbmem'
          · exact hbq.symm
          · have hqb' : q.1 < b.1 :=
              (List.pairwise_cons.mp (List.pairwise_cons.mp hsort).2).1 b hbmem'
            linarith
        rw [if_pos hq]
        have hxq : x = q.1 := le_antisymm hq (by rw [hqb]; exact hbx)
        rw [hxq, linear_at_right q.2 hpq, hqb]
      · rw [if_neg hq]
        exact ih (List.pairwise_cons.mp hsort).2 b hb' hbx

/-- Bracketing: between two adjacent anchors the value stays between their
yields. -/
lemma npInterp_bracket (x : ℚ) :
    ∀ (l1 : List (ℚ × ℚ)) (a b : ℚ × ℚ) (l2 : List (ℚ × ℚ)),
      (l1 ++ a :: b :: l2).Pairwise (fun p q => p.1 < q.1) →
      a.1 ≤ x → x ≤ b.1 →
      min a.2 b.2 ≤ npInterp x (l1 ++ a :: b :: l2)
      ∧ npInterp x (l1 ++ a :: b :: l2) ≤ max a.2 b.2 := by
  intro l1
  induction l1 with
  | nil =>
    intro a b l2 hsort hax hxb
    have hab : a.1 < b.1 := (List.pairwise_cons.mp hsort).1 b (by simp)
    simp only [List.nil_append]
    rw [npInterp_cons_cons]
    by_cases hxa : x ≤ a.1
    · rw [if_pos hxa]
      exact ⟨min_le_left _ _, le_max_left _ _⟩
    · rw [if_neg hxa, if_pos hxb]
      exact linear_between hab hax hxb
  | cons p l1' ih =>
    intro a b l2 hsort hax hxb
    have hsort' : (l1' ++ a :: b :: l2).Pairwise (fun p q => p.1 < q.1) :=
      (List.pairwise_cons.mp hsort).2
    have hpa : p.1 < a.1 :=
      (List.pairwise_cons.mp hsort).1 a (by simp)
    have hxp : ¬ x ≤ p.1 := by linarith
    rcases hl1 : l1' with _ | ⟨q, l1''⟩
    · subst hl1
      simp only [List.cons_append, List.nil_append] at hsort' ⊢
      rw [npInterp_cons_cons, if_neg hxp]
      by_cases hxa : x ≤ a.1
      · rw [if_pos hxa]
        have hxa' : x = a.1 := le_antisymm hxa hax
        rw [hxa', linear_at_right a.2 hpa]
        exact ⟨min_le_left _ _, le_max_left _ _⟩
      · rw [if_neg hxa]
        have hres := ih a b l2 (by simpa using hsort') hax hxb
        simpa using hres
    · subst hl1
      simp only [List.cons_append]
      rw [npInterp_cons_cons, if_neg hxp]
      have hqa : q.1 < a.1 :=
        (List.pairwise_cons.mp hsort').1 a (by simp)
      have hxq : ¬ x ≤ q.1 := by linarith
      rw [if_neg hxq]
      exact ih a b l2 hsort' hax hxb

/-- **C9.** The risk-free-rate function: an empty anchor set yields the
fixed default `0.03`; a single anchor yields its own yield for every `T`;
`T` at or below the smallest anchor maturity yields the smallest anchor's
yield, at or above the largest yields the largest anchor's yield; and
between two adjacent anchors the rate is the linear interpolation, staying
between the two bracketing yields. -/
theorem c9_rate_curve_spec (T : ℚ) (anchors : List (ℚ × ℚ))
    (hsorted : anchors.Pairwise (fun p q => p.1 < q.1)) :
    (anchors = [] → get_risk_free_rate T anchors = 3 / 100)
    ∧ (∀ p, anchors = [p] → get_risk_free_rate T anchors = p.2)
    ∧ (∀ p rest, anchors = p :: rest → T ≤ p.1 → get_risk_free_rate T anchors = p.2)
    ∧ (∀ p, anchors.getLast? = some p → p.1 ≤ T → get_risk_free_rate T anchors = p.2)
    ∧ (∀ l1 a b l2, anchors = l1 ++ a :: b :: l2 → a.1 ≤ T → T ≤ b.1 →
        min a.2 b.2 ≤ get_risk_free_rate T anchors
        ∧ get_risk_free_rate T anchors ≤ max a.2 b.2) := by
  refine ⟨?_, ?_, ?_, ?_, ?_⟩
  · rintro rfl
    rfl
  · rintro p rfl
    rw [get_risk_free_rate, if_neg (by simp)]
    exact npInterp_single T p
  · rintro p rest rfl hT
    rw [get_risk_free_rate, if_neg (by simp)]
    exact npInterp_head T p rest hT
  · intro p hlast hpT
    have hne : anchors ≠ [] := by
      rintro rfl
      simp at hlast
    rw [get_risk_free_rate, if_neg (by simpa using hne)]
    exact npInterp_last T anchors hsorted p hlast hpT
  · rintro l1 a b l2 rfl hax hxb
    rw [get_risk_free_rate, if_neg (by simp)]
    exact npInterp_bracket T l1 a b l2 hsorted hax hxb

/-- Witness for C9: two anchors bracketing `T = 1`. -/
theorem c9_rate_curve_spec_witness :
    min ((2 : ℚ) / 100) (3 / 100) ≤ get_risk_free_rate 1 [(1 / 4, 2 / 100), (5, 3 / 100)]
    ∧ get_risk_free_rate 1 [(1 / 4, 2 / 100), (5, 3 / 100)] ≤ max ((2 : ℚ) / 100) (3 / 100) :=
  (c9_rate_curve_spec 1 [(1 / 4, 2 / 100), (5, 3 / 100)]
      (by norm_num)).2.2.2.2 [] (1 / 4, 2 / 100) (5, 3 / 100) [] rfl (by norm_num) (by norm_num)

/-! ## Solver failure lemmas -/

/-- The standard-normal cdf is nonnegative. -/
lemma normCdf_nonneg (x : ℝ) : 0 ≤ normCdf x :=
  ProbabilityTheory.cdf_nonneg _ x

/-- The standard-normal cdf is at most one. -/
lemma normCdf_le_one (x : ℝ) : normCdf x ≤ 1 :=
  ProbabilityTheory.cdf_le_one _ x

/-- `brentq` fails exactly on a same-sign bracket. -/
lemma brentq_eq_none {f : ℝ → ℝ} {a b : ℝ} (h : 0 < f a * f b) :
    brentq f a b = Option.none := by
  rw [brentq, if_pos h]

/-- The Black–Scholes call price never exceeds the spot. -/
lemma bs_price_call_le (S K T r sigma : ℝ) (hS : 0 ≤ S) (hK : 0 ≤ K) :
    bs_price S K T r sigma Side.call ≤ S := by
  unfold bs_price
  dsimp only
  have h1 : S * normCdf ((Real.log (S / K) + (r + 0.5 * sigma ^ 2) * T)
      / (sigma * Real.sqrt T)) ≤ S :=
    mul_le_of_le_one_right hS (normCdf_le_one _)
  have h2 : 0 ≤ K * Real.exp (-r * T) * normCdf
      ((Real.log (S / K) + (r + 0.5 * sigma ^ 2) * T) / (sigma * Real.sqrt T)
        - sigma * Real.sqrt T) :=
    mul_nonneg (mul_nonneg hK (Real.exp_pos _).le) (normCdf_nonneg _)
  linarith

/-- The implied-volatility solver fails whenever the market price is
strictly above the spot (for a call, every bracket value is negative). -/
lemma implied_vol_none_of_gt_spot {S K T r mp : ℝ} (hS : 0 ≤ S) (hK : 0 ≤ K)
    (hmp : S < mp) : implied_vol S K T r mp Side.call = Option.none := by
  apply brentq_eq_none
  have h1 : ∀ sigma, bs_price S K T r sigma Side.call - mp < 0 := fun sigma => by
    have := bs_price_call_le S K T r sigma hS hK
    linarith
  exact mul_pos_of_neg_of_neg (h1 _) (h1 _)

/-- `perStrike` skips the strike when the provider lookup and the solver
both fail. -/
lemma perStrike_eq_none {S0 T r : ℝ} {side : Side} {df : List QuoteRecord}
    {rec : QuoteRecord} {b a : ℚ}
    (hfill : fillBidAsk rec.bid rec.ask = some (b, a))
    (hiv : get_yahoo_iv df rec.strike = Option.none)
    (hsol : implied_vol S0 (rec.strike : ℝ) T r (((b : ℝ) + (a : ℝ)) / 2) side
      = Option.none) :
    perStrike S0 T r side df rec = Option.none := by
  unfold perStrike
  rw [hfill]
  dsimp only
  rw [hiv]
  dsimp only
  rw [hsol]

/-! ## C5: whole-chain input validation -/

/-- **C5 counterexample.** With `S0 = 0` (not strictly positive) and an
otherwise valid chain, `calculate_option_prices` raises no input-validation
error: the zero spot flows into per-strike processing (where the solver then
fails for every strike) and the call returns a successful result. -/
theorem c5_no_spot_validation_cex :
    calculate_option_prices 0 365 0 Side.call [smallBidEntry] =
      Except.ok { currentPrice := 0, timeToMaturity := 1, riskFreeRate := 0,
                  optionType := Side.call, results := [] } := by
  have hrecords : buildRecords Side.call [smallBidEntry] = [smallBidRec] := by
    simp +decide [buildRecords, smallBidEntry, smallBidRec, normEntry, entryBid, entryAsk,
      entryLast, safe_float, pyFloatLit, pyStrip, removeChar, digitsVal, decVal,
      List.dropWhile, List.splitOn, List.splitOnP, List.splitOnP.go, List.filter, List.foldl]
  rw [calculate_option_prices, if_neg (by norm_num), if_neg (by simp [smallBidEntry]),
    hrecords]
  rw [if_neg (by simp)]
  have hdf : dropnaBidAsk [smallBidRec] = [smallBidRec] := by
    simp [dropnaBidAsk, smallBidRec]
  rw [hdf]
  have hnone : perStrike 0 (((365 : ℤ) : ℝ) / 365) 0 Side.call [smallBidRec] smallBidRec
      = Option.none := by
    refine perStrike_eq_none (b := 5) (a := 5) rfl ?_ ?_
    · simp +decide [get_yahoo_iv, List.find?, smallBidRec]
    · exact implied_vol_none_of_gt_spot le_rfl (by norm_num [smallBidRec]) (by norm_num)
  simp only [List.filterMap_cons, hnone, List.filterMap_nil]
  simp only [Except.ok.injEq, ChainResult.mk.injEq]
  norm_num

/-- **C5 (amended).** The chain pricer validates once, before any per-strike
processing, that the expiration lies in the future (`T > 0`), failing the
whole request otherwise; the spot price `S0` is not validated — a
non-positive spot proceeds into per-strike processing. -/
theorem c5_validation_spec (S0 : ℝ) (dd : ℤ) (r : ℝ) (side : Side)
    (contracts : List RawEntry) :
    (dd ≤ 0 → calculate_option_prices S0 dd r side contracts
        = Except.error ChainError.expirationNotFuture)
    ∧ (∀ res, calculate_option_prices S0 dd r side contracts = Except.ok res → 0 < dd) := by
  constructor
  · intro h
    rw [calculate_option_prices, if_pos h]
  · intro res h
    by_contra hdd
    rw [calculate_option_prices, if_pos (not_lt.mp hdd)] at h
    exact absurd h (by simp)

/-- Witness for C5 (amended): a past expiration fails the whole request. -/
theorem c5_validation_spec_witness :
    calculate_option_prices 1 (-1) 0 Side.call [smallBidEntry]
      = Except.error ChainError.expirationNotFuture :=
  (c5_validation_spec 1 (-1) 0 Side.call [smallBidEntry]).1 (by norm_num)

/-! ## C2: chain-level failure conditions -/

/-- **C2 counterexample.** A chain whose single quote survives normalization
but is dropped by solver failure (the quoted price `1000000` is above any
price the model can reach, so the bracket has no sign change) does **not**
raise the "no usable data" error: it returns a successful result with an
empty results list. -/
theorem c2_empty_success_cex :
    calculate_option_prices 100 365 0 Side.call [hugeBidEntry] =
      Except.ok { currentPrice := 100, timeToMaturity := 1, riskFreeRate := 0,
                  optionType := Side.call, results := [] } := by
  have hrecords : buildRecords Side.call [hugeBidEntry] = [hugeBidRec] := by
    simp +decide [buildRecords, hugeBidEntry, hugeBidRec, normEntry, entryBid, entryAsk,
      entryLast, safe_float, pyFloatLit, pyStrip, removeChar, digitsVal, decVal,
      List.dropWhile, List.splitOn, List.splitOnP, List.splitOnP.go, List.filter, List.foldl]
  rw [calculate_option_prices, if_neg (by norm_num), if_neg (by simp [hugeBidEntry]),
    hrecords]
  rw [if_neg (by simp)]
  have hdf : dropnaBidAsk [hugeBidRec] = [hugeBidRec] := by
    simp [dropnaBidAsk, hugeBidRec]
  rw [hdf]
  have hnone : perStrike 100 (((365 : ℤ) : ℝ) / 365) 0 Side.call [hugeBidRec] hugeBidRec
      = Option.none := by
    refine perStrike_eq_none (b := 1000000) (a := 1000000) rfl ?_ ?_
    · simp +decide [get_yahoo_iv, List.find?, hugeBidRec]
    · exact implied_vol_none_of_gt_spot (by norm_num) (by norm_num [hugeBidRec])
        (by norm_num [hugeBidRec])
  simp only [List.filterMap_cons, hnone, List.filterMap_nil]
  simp only [Except.ok.injEq, ChainResult.mk.injEq]
  norm_num

/-- **C2 (amended).** With a future expiration and a nonempty contract list,
the chain raises the "no usable data" error exactly when no quote survives
normalization; when at least one record survives, the call succeeds and its
result list is the per-strike map over the surviving records — a solver
failure only removes its own strike (in particular, if every strike's solver
fails the call still succeeds, with an empty results list). -/
theorem c2_chain_failure_spec (S0 : ℝ) (dd : ℤ) (r : ℝ) (side : Side)
    (contracts : List RawEntry) (hdd : 0 < dd) (hc : contracts ≠ []) :
    (calculate_option_prices S0 dd r side contracts
        = Except.error ChainError.noUsableContracts
      ↔ buildRecords side contracts = [])
    ∧ (∀ res, calculate_option_prices S0 dd r side contracts = Except.ok res →
        res.results = (dropnaBidAsk (buildRecords side contracts)).filterMap
          (perStrike S0 ((dd : ℝ) / 365) r side
            (dropnaBidAsk (buildRecords side contracts)))) := by
  rw [calculate_option_prices, if_neg (not_le.mpr hdd),
    if_neg (by simpa using hc)]
  by_cases hr : buildRecords side contracts = []
  · rw [if_pos (by simp [hr])]
    exact ⟨by simp [hr], by intro res h; exact absurd h (by simp)⟩
  · rw [if_neg (by simpa using hr)]
    constructor
    · constructor
      · intro h
        exact absurd h (by simp)
      · intro h
        exact absurd h hr
    · intro res h
      injection h with h2
      rw [← h2]

/-- Witness for C2 (amended): a chain where every quote is rejected by
normalization raises the "no usable data" error. -/
theorem c2_chain_failure_spec_witness :
    calculate_option_prices 1 30 0 Side.call [{ strike := PyVal.str "--" }]
      = Except.error ChainError.noUsableContracts :=
  (c2_chain_failure_spec 1 30 0 Side.call [{ strike := PyVal.str "--" }]
      (by norm_num) (by simp)).1.mpr (by simp +decide [buildRecords, normEntry, safe_float])

/-! ## C1: the lattice value against the immediate-exercise floor -/

/-- The step count is always at least 100. -/
lemma latticeSteps_ge (T : ℝ) : 100 ≤ latticeSteps T := by
  have h : ((100 : ℤ)).toNat ≤ (numSteps T).toNat :=
    Int.toNat_le_toNat (le_max_left _ _)
  simpa [latticeSteps] using h

/-- Every element of a `zipWith` comes from a pair of elements. -/
lemma mem_zipWith_exists {α β γ : Type _} {f : α → β → γ} :
    ∀ {l1 : List α} {l2 : List β} {x : γ}, x ∈ List.zipWith f l1 l2 →
      ∃ a ∈ l1, ∃ b ∈ l2, x = f a b := by
  intro l1
  induction l1 with
  | nil =>
    intro l2 x h
    simp at h
  | cons a l1' ih =>
    intro l2 x h
    rcases l2 with _ | ⟨b, l2'⟩
    · simp at h
    · rcases List.mem_cons.mp h with h1 | h2
      · exact ⟨a, by simp, b, by simp, h1⟩
      · obtain ⟨a', ha', b', hb', hx⟩ := ih h2
        exact ⟨a', by simp [ha'], b', by simp [hb'], hx⟩

/-- A backward-induction step shrinks a layer of length `i + 2` to `i + 1`. -/
lemma backstep_length (S0 K u d p R : ℝ) (side : Side) (i : ℕ) (vs : List ℝ)
    (h : vs.length = i + 2) :
    (backstep S0 K u d p R side i vs).length = i + 1 := by
  simp [backstep, h]

/-- With a risk-neutral probability in `[0, 1]` and a positive discount
factor, a backward-induction step preserves nonnegativity of the layer. -/
lemma backstep_nonneg {S0 K u d p R : ℝ} {side : Side} {i : ℕ} {vs : List ℝ}
    (hp0 : 0 ≤ p) (hp1 : p ≤ 1) (hR : 0 < R) (hvs : ∀ x ∈ vs, 0 ≤ x) :
    ∀ x ∈ backstep S0 K u d p R side i vs, 0 ≤ x := by
  intro x hx
  obtain ⟨c, hc, e, -, hx⟩ := mem_zipWith_exists hx
  obtain ⟨up, hup, down, hdown, hcv⟩ := mem_zipWith_exists hc
  have h1 : 0 ≤ up := hvs up (List.tail_subset _ hup)
  have h2 : 0 ≤ down := hvs down (List.dropLast_subset _ hdown)
  have h3 : 0 ≤ c := by
    rw [hcv]
    have : 0 ≤ p * up + (1 - p) * down :=
      add_nonneg (mul_nonneg hp0 h1) (mul_nonneg (by linarith) h2)
    positivity
  rw [hx]
  exact le_trans h3 (le_max_left _ _)

/-- Nonnegativity is preserved through the whole backward induction. -/
lemma backward_nonneg {S0 K u d p R : ℝ} {side : Side}
    (hp0 : 0 ≤ p) (hp1 : p ≤ 1) (hR : 0 < R) :
    ∀ (n : ℕ) (vs : List ℝ), (∀ x ∈ vs, 0 ≤ x) →
      ∀ x ∈ backward S0 K u d p R side n vs, 0 ≤ x := by
  intro n
  induction n with
  | zero => intro vs hvs; exact hvs
  | succ n ih =>
    intro vs hvs
    exact ih _ (backstep_nonneg hp0 hp1 hR hvs)

/-- Running the induction down to the root from a layer of matching length
produces a single node: the maximum of a continuation value and the
immediate-exercise payoff at the root. -/
lemma backward_final (S0 K u d p R : ℝ) (side : Side) :
    ∀ (n : ℕ) (vs : List ℝ), vs.length = n + 2 →
      ∃ c, backward S0 K u d p R side (n + 1) vs
        = [max c (intrinsic side (nodePrice S0 u d 0 0) K)] := by
  intro n
  induction n with
  | zero =>
    intro vs hvs
    rcases vs with _ | ⟨x, _ | ⟨y, _ | _⟩⟩ <;> simp at hvs
    refine ⟨(p * y + (1 - p) * x) / R, ?_⟩
    simp [backward, backstep, List.range_succ, List.zipWith]
  | succ n ih =>
    intro vs hvs
    have hlen : (backstep S0 K u d p R side (n + 1) vs).length = n + 2 :=
      backstep_length S0 K u d p R side (n + 1) vs (by omega)
    obtain ⟨c, hc⟩ := ih (backstep S0 K u d p R side (n + 1) vs) hlen
    exact ⟨c, hc⟩

/-- The root node's price is the spot price. -/
lemma nodePrice_zero (S0 u d : ℝ) (hS0 : 0 < S0) : nodePrice S0 u d 0 0 = S0 := by
  simp [nodePrice, Real.exp_log hS0]

/-- The terminal layer is nonnegative. -/
lemma terminalLayer_nonneg (S0 K u d : ℝ) (side : Side) (N : ℕ) :
    ∀ x ∈ terminalLayer S0 K u d side N, 0 ≤ x := by
  intro x hx
  obtain ⟨j, -, hj⟩ := List.mem_map.mp hx
  rw [← hj]
  exact le_max_right _ _

/-- With `σ > 0` and `T > 0` the lattice has `d < u`, and the conditions
`d ≤ R ≤ u` place the risk-neutral probability in `[0, 1]`. -/
lemma crrP_mem_unit {T r sigma : ℝ} (hT : 0 < T) (hsigma : 0 < sigma)
    (hd : crrD T sigma ≤ crrR T r) (hu : crrR T r ≤ crrU T sigma) :
    0 ≤ crrP T r sigma ∧ crrP T r sigma ≤ 1 := by
  have hNpos : (0 : ℝ) < (latticeSteps T : ℝ) := by
    have := latticeSteps_ge T
    exact_mod_cast lt_of_lt_of_le (by norm_num : (0 : ℕ) < 100) this
  have hdt : 0 < crrDt T := div_pos hT hNpos
  have hsq : 0 < sigma * Real.sqrt (crrDt T) :=
    mul_pos hsigma (Real.sqrt_pos.mpr hdt)
  have hu1 : 1 < crrU T sigma := by
    rw [crrU, ← Real.exp_zero]
    exact Real.exp_lt_exp.mpr hsq
  have hupos : 0 < crrU T sigma := lt_trans one_pos hu1
  have hd1 : crrD T sigma < 1 := by
    rw [crrD]
    rw [div_lt_one hupos]
    exact hu1
  have hdenom : 0 < crrU T sigma - crrD T sigma := by linarith
  constructor
  · exact div_nonneg (by linarith) hdenom.le
  · rw [crrP, div_le_one hdenom]
    linarith

/-- **C1 (amended).** For `S0, K, T, σ > 0` and any rate `r` for which the
per-step gross growth `R` stays between the down and up factors (equivalently
the risk-neutral probability `p = (R − d)/(u − d)` lies in `[0, 1]`), the
American lattice value is at least `max(intrinsic value at the spot, 0)`.
Outside that regime the root value still dominates the intrinsic value (the
final early-exercise comparison), but can be negative — see the
counterexample. -/
theorem c1_value_floor (S0 K T r sigma : ℝ) (side : Side)
    (hS0 : 0 < S0) (hK : 0 < K) (hT : 0 < T) (hsigma : 0 < sigma)
    (hd : crrD T sigma ≤ crrR T r) (hu : crrR T r ≤ crrU T sigma) :
    max (intrinsic side S0 K) 0 ≤ americanValue S0 K T r sigma side := by
  obtain ⟨hp0, hp1⟩ := crrP_mem_unit hT hsigma hd hu
  have hR : 0 < crrR T r := Real.exp_pos _
  have hN : 100 ≤ latticeSteps T := latticeSteps_ge T
  obtain ⟨m, hm⟩ : ∃ m, latticeSteps T = m + 1 := ⟨latticeSteps T - 1, by omega⟩
  have hterm : (terminalLayer S0 K (crrU T sigma) (crrD T sigma) side (m + 1)).length
      = m + 2 := by
    simp [terminalLayer]
  obtain ⟨c, hc⟩ := backward_final S0 K (crrU T sigma) (crrD T sigma)
    (crrP T r sigma) (crrR T r) side m _ hterm
  have hnn : 0 ≤ max c (intrinsic side (nodePrice S0 (crrU T sigma) (crrD T sigma) 0 0) K) := by
    refine @backward_nonneg S0 K (crrU T sigma) (crrD T sigma) (crrP T r sigma)
      (crrR T r) side hp0 hp1 hR (m + 1) _
      (terminalLayer_nonneg S0 K (crrU T sigma) (crrD T sigma) side (m + 1)) _ ?_
    rw [hc]
    simp
  rw [americanValue, hm, hc]
  rw [nodePrice_zero _ _ _ hS0] at hnn ⊢
  simp only [List.headD_cons]
  exact max_le (le_max_right _ _) hnn

/-- Unfolding `backward` on a successor step count. -/
lemma backward_succ (S0 K u d p R : ℝ) (side : Side) (n : ℕ) (vs : List ℝ) :
    backward S0 K u d p R side (n + 1) vs
      = backward S0 K u d p R side n (backstep S0 K u d p R side n vs) := rfl

/-- Unfolding `backward` at step count zero. -/
lemma backward_zero (S0 K u d p R : ℝ) (side : Side) (vs : List ℝ) :
    backward S0 K u d p R side 0 vs = vs := rfl

/-- The put payoff. -/
lemma intrinsic_put (S K : ℝ) : intrinsic Side.put S K = K - S := rfl

/-- The call payoff. -/
lemma intrinsic_call (S K : ℝ) : intrinsic Side.call S K = S - K := rfl

/-- `exp(1/191)` exceeds `192/191`. -/
lemma exp_recip_191_lb : (192 : ℝ) / 191 < Real.exp (1 / 191) := by
  have h := Real.add_one_lt_exp (x := (1 : ℝ) / 191) (by norm_num)
  linarith

/-- `exp(1010/191) > 2500/13`: at the counterexample's parameters the bottom
terminal node is strictly in the money. -/
lemma exp_1010_191_gt : (2500 : ℝ) / 13 < Real.exp (1010 / 191) := by
  have h1 : Real.exp ((1010 : ℝ) / 191) = Real.exp (1 / 191) ^ (1010 : ℕ) := by
    rw [← Real.exp_nat_mul]
    norm_num
  have h2 : ((192 : ℝ) / 191) ^ (1010 : ℕ) < Real.exp (1 / 191) ^ (1010 : ℕ) :=
    pow_lt_pow_left₀ exp_recip_191_lb (by norm_num) (by norm_num)
  have h3 : (2500 : ℝ) / 13 ≤ ((192 : ℝ) / 191) ^ (1010 : ℕ) := by norm_num
  rw [h1]
  linarith

/-- `exp(1000/195584) < 195584/194584` (the linear bound at a 1024th of the
exponent). -/
lemma exp_small_ub : Real.exp ((1000 : ℝ) / 195584) < 195584 / 194584 := by
  have h := Real.add_one_lt_exp (x := -((1000 : ℝ) / 195584)) (by norm_num)
  have hp := Real.exp_pos ((1000 : ℝ) / 195584)
  have he : Real.exp (-((1000 : ℝ) / 195584)) = (Real.exp ((1000 : ℝ) / 195584))⁻¹ :=
    Real.exp_neg _
  rw [he] at h
  have h2 : (194584 : ℝ) / 195584 < (Real.exp ((1000 : ℝ) / 195584))⁻¹ := by linarith
  have hinv : Real.exp ((1000 : ℝ) / 195584) * (Real.exp ((1000 : ℝ) / 195584))⁻¹ = 1 :=
    mul_inv_cancel₀ (ne_of_gt hp)
  nlinarith [h2, hp, hinv]

/-- `exp(1000/191) < 2500/13`: at the counterexample's parameters every
non-terminal lattice node is strictly out of the money for the put. -/
lemma exp_1000_191_lt : Real.exp ((1000 : ℝ) / 191) < 2500 / 13 := by
  have h1 : Real.exp ((1000 : ℝ) / 191) = Real.exp (1000 / 195584) ^ (1024 : ℕ) := by
    rw [← Real.exp_nat_mul]
    norm_num
  have h2 : Real.exp ((1000 : ℝ) / 195584) ^ (1024 : ℕ)
      < ((195584 : ℝ) / 194584) ^ (1024 : ℕ) :=
    pow_lt_pow_left₀ exp_small_ub (Real.exp_pos _).le (by norm_num)
  have h3 : ((195584 : ℝ) / 194584) ^ (1024 : ℕ) ≤ 2500 / 13 := by norm_num
  rw [h1]
  linarith

/-- At `T = 10100/36481` (≈ 101.05 calendar days of maturity) the lattice
takes exactly 101 steps. -/
lemma cexT_steps : latticeSteps ((10100 : ℝ) / 36481) = 101 := by
  have hfloor : ⌊((10100 : ℝ) / 36481) * 365⌋ = 101 := by
    rw [Int.floor_eq_iff]
    norm_num
  unfold latticeSteps numSteps pyInt
  rw [if_neg (by norm_num), hfloor]
  decide

/-- The per-step time at the counterexample maturity. -/
lemma cexT_dt : crrDt ((10100 : ℝ) / 36481) = 100 / 36481 := by
  rw [crrDt, cexT_steps]
  norm_num

/-- `√(100/36481) = 10/191`. -/
lemma cex_sqrt_dt : Real.sqrt ((100 : ℝ) / 36481) = 10 / 191 := by
  have h : ((100 : ℝ) / 36481) = (10 / 191) ^ 2 := by norm_num
  rw [h, Real.sqrt_sq (by norm_num : (0 : ℝ) ≤ 10 / 191)]

/-- The counterexample's up factor. -/
lemma cex_u : crrU ((10100 : ℝ) / 36481) 1 = Real.exp (10 / 191) := by
  rw [crrU, cexT_dt, cex_sqrt_dt]
  norm_num

/-- The counterexample's down factor. -/
lemma cex_d : crrD ((10100 : ℝ) / 36481) 1 = Real.exp (-(10 / 191)) := by
  rw [crrD, cex_u, Real.exp_neg]
  exact one_div _

/-- The counterexample's per-step growth factor. -/
lemma cex_R : crrR ((10100 : ℝ) / 36481) 20 = Real.exp (2000 / 36481) := by
  rw [crrR, cexT_dt]
  norm_num

/-- At `r = 20` the risk-neutral probability exceeds 1 (`R > u`). -/
lemma cex_p_gt_one : 1 < crrP ((10100 : ℝ) / 36481) 20 1 := by
  rw [crrP, cex_u, cex_d, cex_R]
  have hdu : Real.exp (-(10 / 191 : ℝ)) < Real.exp (10 / 191) :=
    Real.exp_lt_exp.mpr (by norm_num)
  have hRu : Real.exp ((10 : ℝ) / 191) < Real.exp (2000 / 36481) :=
    Real.exp_lt_exp.mpr (by norm_num)
  rw [one_lt_div (by linarith)]
  linarith

/-- The node price in closed multiplicative form at the counterexample's
factors. -/
lemma cex_nodePrice (i j : ℕ) :
    nodePrice 100 (Real.exp (10 / 191)) (Real.exp (-(10 / 191))) i j
      = 100 * Real.exp ((j : ℝ) * (10 / 191) - ((i - j : ℕ) : ℝ) * (10 / 191)) := by
  rw [nodePrice, Real.log_exp, Real.log_exp]
  rw [show Real.log 100 + (j : ℝ) * (10 / 191) + ((i - j : ℕ) : ℝ) * (-(10 / 191))
      = Real.log 100 + ((j : ℝ) * (10 / 191) - ((i - j : ℕ) : ℝ) * (10 / 191)) by ring]
  rw [Real.exp_add, Real.exp_log (by norm_num : (0 : ℝ) < 100)]

/-- Every node at most 100 down-steps below the spot stays above the strike
`13/25`. -/
lemma cex_node_lb (i j : ℕ) (hi : (i - j : ℕ) ≤ 100) :
    (13 : ℝ) / 25 < nodePrice 100 (Real.exp (10 / 191)) (Real.exp (-(10 / 191))) i j := by
  rw [cex_nodePrice]
  have h1 : ((i - j : ℕ) : ℝ) ≤ 100 := by exact_mod_cast hi
  have h2 : 0 ≤ (j : ℝ) * (10 / 191) := by positivity
  have harg : -((1000 : ℝ) / 191)
      ≤ (j : ℝ) * (10 / 191) - ((i - j : ℕ) : ℝ) * (10 / 191) := by
    nlinarith
  have hmono : Real.exp (-((1000 : ℝ) / 191))
      ≤ Real.exp ((j : ℝ) * (10 / 191) - ((i - j : ℕ) : ℝ) * (10 / 191)) :=
    Real.exp_le_exp.mpr harg
  have hpos := Real.exp_pos ((1000 : ℝ) / 191)
  have hcancel : Real.exp ((1000 : ℝ) / 191) * (Real.exp ((1000 : ℝ) / 191))⁻¹ = 1 :=
    mul_inv_cancel₀ (ne_of_gt hpos)
  have hinvpos : 0 < (Real.exp ((1000 : ℝ) / 191))⁻¹ := inv_pos.mpr hpos
  have hinv : (13 : ℝ) / 2500 < Real.exp (-((1000 : ℝ) / 191)) := by
    rw [Real.exp_neg]
    nlinarith [exp_1000_191_lt]
  nlinarith

/-- The bottom terminal node is strictly below the strike. -/
lemma cex_terminal_bottom :
    nodePrice 100 (Real.exp (10 / 191)) (Real.exp (-(10 / 191))) 101 0 < (13 : ℝ) / 25 := by
  rw [cex_nodePrice]
  have harg : ((0 : ℕ) : ℝ) * (10 / 191) - (((101 : ℕ) - 0 : ℕ) : ℝ) * (10 / 191)
      = -((1010 : ℝ) / 191) := by
    norm_num
  rw [harg, Real.exp_neg]
  have hpos := Real.exp_pos ((1010 : ℝ) / 191)
  have hcancel : Real.exp ((1010 : ℝ) / 191) * (Real.exp ((1010 : ℝ) / 191))⁻¹ = 1 :=
    mul_inv_cancel₀ (ne_of_gt hpos)
  have hinvpos : 0 < (Real.exp ((1010 : ℝ) / 191))⁻¹ := inv_pos.mpr hpos
  nlinarith [exp_1010_191_gt]

/-- The terminal payoff layer of the counterexample: only the bottom node is
in the money. -/
lemma cex_terminal_layer :
    terminalLayer 100 (13 / 25) (Real.exp (10 / 191)) (Real.exp (-(10 / 191))) Side.put 101
      = (13 / 25 - nodePrice 100 (Real.exp (10 / 191)) (Real.exp (-(10 / 191))) 101 0)
        :: List.replicate 101 0 := by
  rw [terminalLayer, List.range_succ_eq_map, List.map_cons]
  congr 1
  · rw [intrinsic_put]
    exact max_eq_left (by linarith [cex_terminal_bottom])
  · rw [List.map_map]
    refine List.eq_replicate.mpr ⟨by simp, ?_⟩
    intro b hb
    obtain ⟨j, hj, hbj⟩ := List.mem_map.mp hb
    have hj' : j < 101 := List.mem_range.mp hj
    rw [← hbj]
    have hnode := cex_node_lb 101 (j + 1) (by omega)
    simp only [Function.comp, intrinsic_put]
    exact max_eq_right (by linarith)

/-- `dropLast` of the sparse layer. -/
lemma dropLast_cons_replicate (n : ℕ) (v : ℝ) :
    (v :: List.replicate (n + 1) (0 : ℝ)).dropLast = v :: List.replicate n 0 := by
  rw [List.dropLast_cons_of_ne_nil (by simp)]
  simp [List.dropLast_replicate]

/-- Pointwise maximum of zeros against a negative-valued map is zero. -/
lemma zipWith_max_zero_of_neg :
    ∀ (m : ℕ) (g : ℕ → ℝ), (∀ j < m, g j < 0) →
      List.zipWith max (List.replicate m (0 : ℝ)) ((List.range m).map g)
        = List.replicate m 0 := by
  intro m
  induction m with
  | zero =>
    intro g _
    rfl
  | succ m ih =>
    intro g hg
    rw [List.range_succ_eq_map, List.replicate_succ, List.map_cons, List.zipWith_cons_cons]
    rw [max_eq_left (hg 0 (by omega)).le, List.map_map]
    congr 1
    have hres := ih (fun j => g (j + 1)) (fun j hj => hg (j + 1) (by omega))
    simpa [Function.comp] using hres

/-- One backward step on the sparse layer `v :: 0…0`: only the bottom node
changes, to `max((1−p)·v/R, K − S(n,0))`; every other node stays at zero. -/
lemma cex_backstep (p R : ℝ) (n : ℕ) (hn : n ≤ 100) (v : ℝ) :
    backstep 100 (13 / 25) (Real.exp (10 / 191)) (Real.exp (-(10 / 191))) p R Side.put n
        (v :: List.replicate (n + 1) 0)
      = max ((p * 0 + (1 - p) * v) / R)
          (13 / 25 - nodePrice 100 (Real.exp (10 / 191)) (Real.exp (-(10 / 191))) n 0)
        :: List.replicate n 0 := by
  rw [backstep, List.tail_cons, dropLast_cons_replicate]
  rw [List.replicate_succ, List.zipWith_cons_cons, List.zipWith_replicate, min_self]
  have hz : (p * 0 + (1 - p) * (0 : ℝ)) / R = 0 := by
    simp
  rw [hz, List.range_succ_eq_map, List.map_cons, List.zipWith_cons_cons, List.map_map]
  rw [intrinsic_put]
  congr 1
  have hneg : ∀ j < n,
      ((fun j => intrinsic Side.put
          (nodePrice 100 (Real.exp (10 / 191)) (Real.exp (-(10 / 191))) n j) (13 / 25))
        ∘ Nat.succ) j < 0 := by
    intro j hj
    have hnode := cex_node_lb n (j + 1) (by omega)
    simp only [Function.comp, intrinsic_put]
    linarith
  have hres := zipWith_max_zero_of_neg n _ (by
    intro j hj
    have := hneg j hj
    simpa [Function.comp] using this)
  simpa [Function.comp] using hres

/-- The backward induction on the sparse layer alternates the sign of the
bottom node every step; after the full run (odd step count) the root is
negative. -/
lemma cex_backward_neg (p R : ℝ) (hp : 1 < p) (hR : 0 < R) :
    ∀ n, n ≤ 101 → ∀ v : ℝ,
      (Even (101 - n) → 0 < v) → (¬ Even (101 - n) → v < 0) →
      (backward 100 (13 / 25) (Real.exp (10 / 191)) (Real.exp (-(10 / 191))) p R Side.put n
        (v :: List.replicate n 0)).headD 0 < 0 := by
  intro n
  induction n with
  | zero =>
    intro _ v _ hodd
    have hv : v < 0 := hodd (by decide)
    simpa [backward_zero] using hv
  | succ n ih =>
    intro hn v heven hodd
    rw [backward_succ, cex_backstep p R n (by omega) v]
    have hnode := cex_node_lb n 0 (by omega)
    have hintr : 13 / 25
        - nodePrice 100 (Real.exp (10 / 191)) (Real.exp (-(10 / 191))) n 0 < 0 := by
      linarith
    have hpar : (101 - n) = (101 - (n + 1)) + 1 := by omega
    by_cases he : Even (101 - (n + 1))
    · have hv : 0 < v := heven he
      have hcont : (p * 0 + (1 - p) * v) / R < 0 := by
        rw [show p * 0 + (1 - p) * v = (1 - p) * v by ring]
        exact div_neg_of_neg_of_pos (mul_neg_of_neg_of_pos (by linarith) hv) hR
      refine ih (by omega) _ ?_ ?_
      · intro habs
        rw [hpar] at habs
        exact absurd he (Nat.even_add_one.mp habs)
      · intro _
        exact max_lt hcont hintr
    · have hv : v < 0 := hodd he
      have hcont : 0 < (p * 0 + (1 - p) * v) / R := by
        rw [show p * 0 + (1 - p) * v = (1 - p) * v by ring]
        exact div_pos (mul_pos_of_neg_of_neg (by linarith) hv) hR
      refine ih (by omega) _ ?_ ?_
      · intro _
        exact lt_of_lt_of_le hcont (le_max_left _ _)
      · intro habs
        rw [hpar] at habs
        exact absurd (Nat.even_add_one.mpr he) habs

/-- **C1 counterexample.** At `S0 = 100`, `K = 0.52`, `T = 10100/36481`
(≈ 101 days, so `N = 101` steps), `r = 20`, `σ = 1`, `side = put` — a valid
input under the claim's own conditions (`S0, K, T, σ > 0`, real `r`) — the
per-step growth exceeds the up factor (`p > 1`), the backward induction
produces a strictly negative root value, and the claimed floor
`value ≥ max(intrinsic, 0) = 0` fails. -/
theorem c1_lattice_floor_cex :
    americanValue 100 (13 / 25) (10100 / 36481) 20 1 Side.put
      < max (intrinsic Side.put 100 (13 / 25)) 0 := by
  have hmax : max (intrinsic Side.put 100 (13 / 25)) (0 : ℝ) = 0 :=
    max_eq_right (by rw [intrinsic_put]; norm_num)
  rw [hmax, americanValue, cexT_steps, cex_u, cex_d, cex_R, cex_terminal_layer]
  have hB : 0 < 13 / 25
      - nodePrice 100 (Real.exp (10 / 191)) (Real.exp (-(10 / 191))) 101 0 := by
    linarith [cex_terminal_bottom]
  exact cex_backward_neg (crrP (10100 / 36481) 20 1) (Real.exp (2000 / 36481))
    cex_p_gt_one (Real.exp_pos _) 101 le_rfl _ (fun _ => hB)
    (fun h => absurd (by decide) h)

/-- Witness for C1 (amended) at `S0 = K = T = σ = 1`, `r = 0` (where
`d ≤ 1 = R ≤ u` holds). -/
theorem c1_value_floor_witness :
    max (intrinsic Side.call 1 1) 0 ≤ americanValue 1 1 1 0 1 Side.call := by
  have hdt : 0 ≤ Real.sqrt (crrDt 1) := Real.sqrt_nonneg _
  have hu1 : (1 : ℝ) ≤ crrU 1 1 := by
    rw [crrU, ← Real.exp_zero]
    exact Real.exp_le_exp.mpr (by simpa using hdt)
  have hR1 : crrR 1 0 = 1 := by
    simp [crrR]
  refine c1_value_floor 1 1 1 0 1 Side.call one_pos one_pos one_pos one_pos ?_ ?_
  · rw [hR1, crrD]
    rw [div_le_one (by linarith)]
    exact hu1
  · rw [hR1]
    exact hu1

end OptionsPricer
